import Mathlib

/-!
Verification development for the Neural Network Arena repository.

The frontend utilities (speed clamping in the control panel, bounded
metric histories in the performance monitor, the heatmap colormap) are
translated directly from the TypeScript sources under `www`.  The
simulation core (genome decoding, arena memory, the per-tick virtual
machine, the evolution engine) exists in this tree only as its
TypeScript interface declarations and callers; those parts are modelled
from the specification, as marked on each definition.
-/

/-- ControlPanel.adjustSpeed: reads the current slider value, adds the
delta and clamps the result into the closed interval from 0.1 to 5.0,
exactly as `Math.max(0.1, Math.min(5.0, currentSpeed + delta))`. -/
def ControlPanel.adjustSpeed (currentSpeed delta : ℚ) : ℚ :=
  max (1/10) (min 5 (currentSpeed + delta))

/-- PerformanceMonitor.maxFrameHistory: the frame-time history bound. -/
def PerformanceMonitor.maxFrameHistory : Nat := 60

/-- Shared recording discipline of the performance monitor: push the new
sample at the end, then shift the oldest sample off the front when the
length exceeds the bound. -/
def PerformanceMonitor.recordBounded (bound : Nat) (times : List ℚ) (t : ℚ) : List ℚ :=
  let pushed := times ++ [t]
  if bound < pushed.length then pushed.tail else pushed

/-- PerformanceMonitor.frameEnd, restricted to its effect on the
`frameTimes` array: record the frame time with bound 60. -/
def PerformanceMonitor.frameEnd (times : List ℚ) (t : ℚ) : List ℚ :=
  PerformanceMonitor.recordBounded PerformanceMonitor.maxFrameHistory times t

/-- PerformanceMonitor.measureWasmExecution, restricted to its effect on
the `wasmExecutionTimes` array: record the measured time with bound 100. -/
def PerformanceMonitor.measureWasmExecution (times : List ℚ) (t : ℚ) : List ℚ :=
  PerformanceMonitor.recordBounded 100 times t

/-- PerformanceMonitor.measureRenderTime, restricted to its effect on
the `renderTimes` array: record the measured time with bound 100. -/
def PerformanceMonitor.measureRenderTime (times : List ℚ) (t : ℚ) : List ℚ :=
  PerformanceMonitor.recordBounded 100 times t

/-- Color record returned by the heatmap colormap: four integer channels. -/
structure HeatColor where
  r : ℤ
  g : ℤ
  b : ℤ
  a : ℤ
deriving DecidableEq, Repr

/-- Clamp an intensity into the unit interval, as
`Math.max(0, Math.min(1, intensity))`. -/
def clamp01 (x : ℚ) : ℚ := max 0 (min 1 x)

/-- HeatmapRenderer.intensityToColor: the black-red-yellow-white heat
colormap.  The intensity is clamped to the unit interval first; the four
quarter segments interpolate the channels with `Math.floor`, and the
alpha channel is `Math.floor(255 * Math.min(clamped * 1.5, 0.8))`. -/
def HeatmapRenderer.intensityToColor (intensity : ℚ) : HeatColor :=
  let clamped := clamp01 intensity
  let alpha : ℤ := ⌊(255 : ℚ) * min (clamped * (3/2)) (4/5)⌋
  if clamped < 1/4 then
    { r := ⌊(255 : ℚ) * (clamped * 4)⌋, g := 0, b := 0, a := alpha }
  else if clamped < 1/2 then
    { r := 255, g := ⌊(255 : ℚ) * ((clamped - 1/4) * 4)⌋, b := 0, a := alpha }
  else if clamped < 3/4 then
    { r := 255, g := 255, b := ⌊(128 : ℚ) * ((clamped - 1/2) * 4)⌋, a := alpha }
  else
    { r := 255, g := 255, b := 128 + ⌊(127 : ℚ) * ((clamped - 3/4) * 4)⌋, a := alpha }

theorem recordBounded_length_le (bound : Nat) (times : List ℚ) (t : ℚ)
    (h : times.length ≤ bound) :
    (PerformanceMonitor.recordBounded bound times t).length ≤ bound := by
  unfold PerformanceMonitor.recordBounded
  by_cases hlt : bound < (times ++ [t]).length
  · simp only [hlt, if_pos]
    simpa [List.length_tail] using h
  · simp only [hlt, if_neg, not_false_iff]
    omega

theorem foldl_recordBounded_length_le (bound : Nat) (samples : List ℚ) :
    ∀ acc : List ℚ, acc.length ≤ bound →
      (samples.foldl (PerformanceMonitor.recordBounded bound) acc).length ≤ bound := by
  induction samples with
  | nil => intro acc h; simpa using h
  | cons s rest ih =>
      intro acc h
      simpa using ih _ (recordBounded_length_le bound acc s h)

/-- C9: after every call to frameEnd the frameTimes history holds at
most 60 entries, and after every call to measureWasmExecution or
measureRenderTime the respective history holds at most 100 entries, for
every sequence of recorded samples starting from the empty history; each
recording appends the sample and shifts the oldest entry exactly when
the bound is exceeded. -/
theorem metricHistories_bounded (samples : List ℚ) :
    (samples.foldl PerformanceMonitor.frameEnd []).length ≤ 60 ∧
    (samples.foldl PerformanceMonitor.measureWasmExecution []).length ≤ 100 ∧
    (samples.foldl PerformanceMonitor.measureRenderTime []).length ≤ 100 ∧
    ∀ (times : List ℚ) (t : ℚ) (bound : Nat),
      PerformanceMonitor.recordBounded bound times t =
        (if bound < (times ++ [t]).length then (times ++ [t]).tail else times ++ [t]) := by
  refine ⟨?_, ?_, ?_, fun times t bound => rfl⟩
  · exact foldl_recordBounded_length_le 60 samples [] (by simp)
  · exact foldl_recordBounded_length_le 100 samples [] (by simp)
  · exact foldl_recordBounded_length_le 100 samples [] (by simp)

/-- C8: adjustSpeed computes exactly the clamp
`max(0.1, min(5.0, currentSpeed + delta))`, so the resulting speed (the
value shown and the value passed to the speed-change callback) always
lies in the closed interval from 0.1 to 5.0, whatever the current speed
and the delta are. -/
theorem adjustSpeed_clamped (currentSpeed delta : ℚ) :
    ControlPanel.adjustSpeed currentSpeed delta =
        max (1/10) (min 5 (currentSpeed + delta)) ∧
    1/10 ≤ ControlPanel.adjustSpeed currentSpeed delta ∧
    ControlPanel.adjustSpeed currentSpeed delta ≤ 5 := by
  refine ⟨rfl, le_max_left _ _, ?_⟩
  unfold ControlPanel.adjustSpeed
  exact max_le (by norm_num) (min_le_left _ _)

theorem clamp01_mem (x : ℚ) : 0 ≤ clamp01 x ∧ clamp01 x ≤ 1 := by
  constructor
  · exact le_max_left _ _
  · exact max_le (by norm_num) (min_le_left _ _)

theorem clamp01_idem (x : ℚ) : clamp01 (clamp01 x) = clamp01 x := by
  have h := clamp01_mem x
  rw [clamp01, min_eq_right h.2, max_eq_right h.1]

/-- C10: the heatmap colormap is total and clamping: every intensity,
also one below 0 or above 1, yields the same color as its clamp into the
unit interval, and the returned channels satisfy r, g, b between 0 and
255 and alpha between 0 and 204. -/
theorem intensityToColor_clamped (intensity : ℚ) :
    HeatmapRenderer.intensityToColor intensity =
        HeatmapRenderer.intensityToColor (max 0 (min 1 intensity)) ∧
    0 ≤ (HeatmapRenderer.intensityToColor intensity).r ∧
    (HeatmapRenderer.intensityToColor intensity).r ≤ 255 ∧
    0 ≤ (HeatmapRenderer.intensityToColor intensity).g ∧
    (HeatmapRenderer.intensityToColor intensity).g ≤ 255 ∧
    0 ≤ (HeatmapRenderer.intensityToColor intensity).b ∧
    (HeatmapRenderer.intensityToColor intensity).b ≤ 255 ∧
    0 ≤ (HeatmapRenderer.intensityToColor intensity).a ∧
    (HeatmapRenderer.intensityToColor intensity).a ≤ 204 := by
  constructor
  · show HeatmapRenderer.intensityToColor intensity =
        HeatmapRenderer.intensityToColor (clamp01 intensity)
    unfold HeatmapRenderer.intensityToColor
    rw [clamp01_idem]
  · have h0 : 0 ≤ clamp01 intensity := (clamp01_mem intensity).1
    have h1 : clamp01 intensity ≤ 1 := (clamp01_mem intensity).2
    set c := clamp01 intensity with hc
    have halpha0 : 0 ≤ (⌊(255 : ℚ) * min (c * (3/2)) (4/5)⌋ : ℤ) := by
      apply Int.le_floor.mpr
      push_cast
      have : (0:ℚ) ≤ min (c * (3/2)) (4/5) := le_min (by nlinarith) (by norm_num)
      nlinarith
    have halpha1 : (⌊(255 : ℚ) * min (c * (3/2)) (4/5)⌋ : ℤ) ≤ 204 := by
      have hle : (255 : ℚ) * min (c * (3/2)) (4/5) ≤ 204 := by
        have : min (c * (3/2)) (4/5) ≤ 4/5 := min_le_right _ _
        nlinarith
      calc (⌊(255 : ℚ) * min (c * (3/2)) (4/5)⌋ : ℤ) ≤ ⌊(204 : ℚ)⌋ :=
            Int.floor_le_floor hle
        _ = 204 := by norm_num
    unfold HeatmapRenderer.intensityToColor
    rw [← hc]
    by_cases hq1 : c < 1/4
    · simp only [hq1, if_pos]
      refine ⟨?_, ?_, by norm_num, by norm_num, by norm_num, by norm_num, halpha0, halpha1⟩
      · apply Int.le_floor.mpr; push_cast; nlinarith
      · have : (255 : ℚ) * (c * 4) < 256 := by nlinarith
        have := Int.floor_lt.mpr (by push_cast; linarith : (255 : ℚ) * (c * 4) < ((256 : ℤ) : ℚ))
        omega
    · by_cases hq2 : c < 1/2
      · simp only [hq1, hq2, if_neg, if_pos, not_false_iff]
        have hge : (1:ℚ)/4 ≤ c := le_of_not_lt hq1
        refine ⟨by norm_num, by norm_num, ?_, ?_, by norm_num, by norm_num, halpha0, halpha1⟩
        · apply Int.le_floor.mpr; push_cast; nlinarith
        · have : (255 : ℚ) * ((c - 1/4) * 4) < 256 := by nlinarith
          have := Int.floor_lt.mpr
            (by push_cast; linarith : (255 : ℚ) * ((c - 1/4) * 4) < ((256 : ℤ) : ℚ))
          omega
      · by_cases hq3 : c < 3/4
        · simp only [hq1, hq2, hq3, if_neg, if_pos, not_false_iff]
          have hge : (1:ℚ)/2 ≤ c := le_of_not_lt hq2
          refine ⟨by norm_num, by norm_num, by norm_num, by norm_num, ?_, ?_, halpha0, halpha1⟩
          · apply Int.le_floor.mpr; push_cast; nlinarith
          · have : (128 : ℚ) * ((c - 1/2) * 4) < 256 := by nlinarith
            have := Int.floor_lt.mpr
              (by push_cast; linarith : (128 : ℚ) * ((c - 1/2) * 4) < ((256 : ℤ) : ℚ))
            omega
        · simp only [hq1, hq2, hq3, if_neg, not_false_iff]
          have hge : (3:ℚ)/4 ≤ c := le_of_not_lt hq3
          have hf0 : 0 ≤ (⌊(127 : ℚ) * ((c - 3/4) * 4)⌋ : ℤ) := by
            apply Int.le_floor.mpr; push_cast; nlinarith
          have hf1 : (⌊(127 : ℚ) * ((c - 3/4) * 4)⌋ : ℤ) ≤ 127 := by
            have : (127 : ℚ) * ((c - 3/4) * 4) < 128 := by nlinarith
            have := Int.floor_lt.mpr
              (by push_cast; linarith : (127 : ℚ) * ((c - 3/4) * 4) < ((128 : ℤ) : ℚ))
            omega
          exact ⟨by norm_num, by norm_num, by norm_num, by norm_num,
            by omega, by omega, halpha0, halpha1⟩

namespace Core

/-- Modelled from the spec: the fixed genome byte budget, 64 bytes. -/
def genomeSize : Nat := 64

/-- Modelled from the spec: a Genome is a fixed-size byte sequence
encoding network topology and weights in quantized form. -/
structure Genome where
  bytes : List Nat
deriving DecidableEq, Repr

/-- Modelled from the spec: the decoded Network, an input layer of 8
sensors, one hidden layer of configurable size, an output layer of 4
action scores, with quantized weights taken from the genome bytes. -/
structure Network where
  inputSize : Nat
  hiddenSize : Nat
  outputSize : Nat
  weights : List ℚ
deriving DecidableEq, Repr

/-- Modelled from the spec: quantized byte-to-weight map; an
out-of-range byte value wraps modulo 256 rather than failing, and the
result is a weight in the interval from -1 to 127/128. -/
def byteToWeight (b : Nat) : ℚ := (((b % 256 : Nat) : ℚ) - 128) / 128

/-- Modelled from the spec: decode is a total deterministic pure
function of the genome bytes producing a network with 8 inputs, the
configured hidden size and 4 outputs. -/
def decode (hiddenSize : Nat) (g : Genome) : Network :=
  { inputSize := 8
    hiddenSize := hiddenSize
    outputSize := 4
    weights := g.bytes.map byteToWeight }

/-- Bounded activation used by the decoded network. -/
def clampAct (x : ℚ) : ℚ := max (-1) (min 1 x)

/-- Weight lookup of the compact encoding: indices cycle through the
quantized weight list, an empty list giving weight 0. -/
def Network.weightAt (n : Network) (i : Nat) : ℚ :=
  if n.weights.length = 0 then 0 else n.weights.getD (i % n.weights.length) 0

/-- Modelled from the spec: the pure forward pass of the decoded
network, reading 8 sensor values and producing 4 action scores. -/
def Network.forward (n : Network) (inputs : List ℚ) : List ℚ :=
  let hidden := (List.range n.hiddenSize).map (fun j =>
    clampAct (((List.range n.inputSize).map (fun i =>
      n.weightAt (j * n.inputSize + i) * inputs.getD i 0)).sum))
  (List.range n.outputSize).map (fun k =>
    ((List.range n.hiddenSize).map (fun j =>
      n.weightAt (n.inputSize * n.hiddenSize + k * n.hiddenSize + j) * hidden.getD j 0)).sum)

/-- The closed action set of the virtual machine. -/
inductive Action where
  | move
  | replicate
  | attack
  | defend
deriving DecidableEq, Repr

/-- Modelled from the spec: ACTIVATE maps the 4 output scores to one
action by highest score wins, ties broken by the fixed priority order
move, then replicate, then attack, then defend. -/
def chooseAction (scores : List ℚ) : Action :=
  let s0 := scores.getD 0 0
  let s1 := scores.getD 1 0
  let s2 := scores.getD 2 0
  let s3 := scores.getD 3 0
  if s1 ≤ s0 ∧ s2 ≤ s0 ∧ s3 ≤ s0 then .move
  else if s2 ≤ s1 ∧ s3 ≤ s1 then .replicate
  else if s3 ≤ s2 then .attack
  else .defend

/-- C1: decode is a total deterministic function of the genome bytes;
for every genome (in particular every byte sequence of at most the
64-byte genome size, the all-zero and the all-255 sequence included) it
yields a structurally valid bounded network with exactly 8 input
neurons, the configured hidden size and exactly 4 output neurons, every
weight byte being wrapped into the bounded interval from -1 to 1 rather
than failing.  Totality and determinism hold because decode is a pure
function defined on all byte lists. -/
theorem decode_total_valid (hiddenSize : Nat) (g : Genome) :
    (decode hiddenSize g).inputSize = 8 ∧
    (decode hiddenSize g).hiddenSize = hiddenSize ∧
    (decode hiddenSize g).outputSize = 4 ∧
    (decode hiddenSize g).weights.length = g.bytes.length ∧
    (∀ w ∈ (decode hiddenSize g).weights, -1 ≤ w ∧ w ≤ 1) := by
  refine ⟨rfl, rfl, rfl, by simp [decode], ?_⟩
  intro w hw
  simp only [decode, List.mem_map] at hw
  obtain ⟨b, _, hb⟩ := hw
  subst hb
  unfold byteToWeight
  have hlt : b % 256 < 256 := Nat.mod_lt _ (by norm_num)
  have hcast : ((b % 256 : Nat) : ℚ) < 256 := by exact_mod_cast hlt
  have hge : (0 : ℚ) ≤ ((b % 256 : Nat) : ℚ) := by positivity
  constructor
  · rw [le_div_iff₀ (by norm_num : (0:ℚ) < 128)]
    nlinarith
  · rw [div_le_iff₀ (by norm_num : (0:ℚ) < 128)]
    nlinarith

/-- A cell coordinate of the bounded Arena Memory grid. -/
structure Pos where
  x : ℤ
  y : ℤ
deriving DecidableEq, Repr

/-- Modelled from the spec: the recognized configuration record with the
energy costs of the tick state machine. -/
structure Config where
  width : ℤ
  height : ℤ
  hiddenSize : Nat
  survivalCost : ℤ
  moveCost : ℤ
  attackCost : ℤ
  defendCost : ℤ
  replicationCost : ℤ
  attackDamage : ℤ
  childEnergy : ℤ
  mutationRate : Nat
  compatibilityThreshold : ℚ
  fitnessSharing : Bool
  tournamentSize : Nat
  elitismCount : Nat
  maxPopulation : Nat
  ticksPerGeneration : Nat
deriving DecidableEq, Repr

/-- Validity of a configuration, checked at configure time: positive
grid, positive per-tick survival cost, non-negative action costs. -/
def Config.okay (cfg : Config) : Prop :=
  0 < cfg.width ∧ 0 < cfg.height ∧ 0 < cfg.survivalCost ∧ 0 ≤ cfg.moveCost ∧
  0 ≤ cfg.attackCost ∧ 0 ≤ cfg.defendCost ∧ 0 ≤ cfg.replicationCost ∧
  0 ≤ cfg.attackDamage

instance (cfg : Config) : Decidable cfg.okay := by
  unfold Config.okay; infer_instance

/-- Modelled from the spec: a Warrior with identity, owned genome,
position into Arena Memory, energy, age, fitness, generation, lineage
depth, species assignment and last action. -/
structure Warrior where
  id : Nat
  genome : Genome
  pos : Pos
  energy : ℤ
  age : Nat
  fitness : ℚ
  generation : Nat
  lineageDepth : Nat
  speciesId : Option Nat
  lastAction : String
deriving DecidableEq, Repr

/-- Modelled from the spec: a Resource, a position plus an energy value
and a type tag. -/
structure Resource where
  pos : Pos
  energyValue : ℤ
  resourceType : String
deriving DecidableEq, Repr

/-- Modelled from the spec: a Territory region with its center, radius,
optional owning warrior and resource multiplier. -/
structure Territory where
  center : Pos
  radius : ℚ
  ownerId : Option Nat
  resourceMultiplier : ℚ
deriving DecidableEq, Repr

/-- Modelled from the spec: the Arena, owning Arena Memory (the warrior
and resource cells), the population, the counters and the explicit RNG
seed threaded through every stochastic operation. -/
structure Arena where
  cfg : Config
  warriors : List Warrior
  resources : List Resource
  territories : List Territory
  generation : Nat
  tick : Nat
  pressure : ℚ
  nextId : Nat
  seed : Nat
deriving DecidableEq, Repr

/-- Bounds check of Arena Memory. -/
def inBounds (cfg : Config) (p : Pos) : Bool :=
  decide (0 ≤ p.x) && decide (p.x < cfg.width) &&
  decide (0 ≤ p.y) && decide (p.y < cfg.height)

/-- Occupancy check: does some warrior stand on the cell. -/
def isOccupied (a : Arena) (p : Pos) : Bool :=
  a.warriors.any (fun w => decide (w.pos = p))

/-- A cell is free when it is in bounds and no warrior occupies it. -/
def isFree (a : Arena) (p : Pos) : Bool :=
  inBounds a.cfg p && !(isOccupied a p)

/-- The four-cell neighborhood of a position. -/
def neighbors (p : Pos) : List Pos :=
  [⟨p.x + 1, p.y⟩, ⟨p.x - 1, p.y⟩, ⟨p.x, p.y + 1⟩, ⟨p.x, p.y - 1⟩]

/-- First free adjacent cell, if any. -/
def freeAdjacent (a : Arena) (p : Pos) : Option Pos :=
  (neighbors p).find? (fun q => isFree a q)

/-- Is a resource present on the cell. -/
def resourceAt (a : Arena) (p : Pos) : Bool :=
  a.resources.any (fun r => decide (r.pos = p))

/-- Embed a flag into a sensor value. -/
def boolToQ (b : Bool) : ℚ := if b then 1 else 0

/-- Modelled from the spec: read_sensors produces the 8 sensor values at
a position: neighbor occupancy in the four directions, resource presence
on the cell, local resource density, environmental pressure and the
own normalized energy of the warrior. -/
def readSensors (a : Arena) (w : Warrior) : List ℚ :=
  [ boolToQ (isOccupied a ⟨w.pos.x + 1, w.pos.y⟩),
    boolToQ (isOccupied a ⟨w.pos.x - 1, w.pos.y⟩),
    boolToQ (isOccupied a ⟨w.pos.x, w.pos.y + 1⟩),
    boolToQ (isOccupied a ⟨w.pos.x, w.pos.y - 1⟩),
    boolToQ (resourceAt a w.pos),
    ((a.resources.filter (fun r =>
      decide ((r.pos.x - w.pos.x).natAbs + (r.pos.y - w.pos.y).natAbs ≤ 2))).length : ℚ),
    a.pressure,
    (w.energy : ℚ) / 100 ]

/-- The Sense, Infer and Decode-Action phases for one warrior. -/
def warriorAction (a : Arena) (w : Warrior) : Action :=
  chooseAction ((decode a.cfg.hiddenSize w.genome).forward (readSensors a w))

/-- The deterministic linear congruential generator threading the
explicit RNG seed. -/
def lcg (s : Nat) : Nat := (1103515245 * s + 12345) % 2147483648

/-- Modelled from the spec: per-byte mutation gated by the rate, each
decision drawn from the threaded seed. -/
def mutateBytes (rate : Nat) : List Nat → Nat → List Nat × Nat
  | [], s => ([], s)
  | b :: rest, s =>
    let s1 := lcg s
    let b2 := if s1 % 100 < rate then lcg s1 % 256 else b
    let (bs, s2) := mutateBytes rate rest (lcg s1)
    (b2 :: bs, s2)

/-- Modelled from the spec: mutate returns a new genome, never editing
the parent genome in place. -/
def mutate (rate : Nat) (g : Genome) (s : Nat) : Genome × Nat :=
  let (bs, s2) := mutateBytes rate g.bytes s
  (⟨bs⟩, s2)

/-- Look a warrior up by id. -/
def findWarrior (a : Arena) (wid : Nat) : Option Warrior :=
  a.warriors.find? (fun w => decide (w.id = wid))

/-- Modelled from the spec: move relocates the warrior to an adjacent
free cell and is a no-op when all neighbors are occupied or out of
bounds. -/
def applyMove (a : Arena) (w : Warrior) : Arena :=
  match freeAdjacent a w.pos with
  | some p =>
      { a with warriors := a.warriors.map (fun v =>
          if v.id = w.id then { v with pos := p, lastAction := "move" } else v) }
  | none => a

/-- Modelled from the spec: replicate spends the configured energy cost
to create a child with a mutated copy of the genome at an adjacent free
cell, incrementing generation and lineage depth; it fails silently,
consuming no energy, when the energy is below the cost, the population
is at capacity or no adjacent cell is free. -/
def applyReplicate (a : Arena) (w : Warrior) : Arena :=
  if a.cfg.replicationCost ≤ w.energy ∧ a.warriors.length < a.cfg.maxPopulation then
    match freeAdjacent a w.pos with
    | some p =>
        { a with
          warriors :=
            { id := a.nextId,
              genome := (mutate a.cfg.mutationRate w.genome a.seed).1,
              pos := p, energy := a.cfg.childEnergy, age := 0, fitness := 0,
              generation := w.generation + 1, lineageDepth := w.lineageDepth + 1,
              speciesId := none, lastAction := "idle" } ::
            a.warriors.map (fun v =>
              if v.id = w.id then
                { v with energy := v.energy - a.cfg.replicationCost,
                         lastAction := "replicate" }
              else v),
          nextId := a.nextId + 1,
          seed := (mutate a.cfg.mutationRate w.genome a.seed).2 }
    | none => a
  else a

/-- Modelled from the spec: attack reduces the energy of a neighboring
warrior; a no-op when no neighbor is occupied. -/
def applyAttack (a : Arena) (w : Warrior) : Arena :=
  match (neighbors w.pos).find? (fun q => isOccupied a q) with
  | some q =>
      { a with warriors := a.warriors.map (fun v =>
          if v.pos = q then { v with energy := v.energy - a.cfg.attackDamage } else v) }
  | none => a

/-- Modelled from the spec: defend marks the warrior as defending for
the current tick. -/
def applyDefend (a : Arena) (w : Warrior) : Arena :=
  { a with warriors := a.warriors.map (fun v =>
      if v.id = w.id then { v with lastAction := "defend" } else v) }

/-- The action-specific cost charged together with the survival cost;
the replication cost is charged by the replicate effect itself. -/
def actionCost (cfg : Config) : Action → ℤ
  | .move => cfg.moveCost
  | .replicate => 0
  | .attack => cfg.attackCost
  | .defend => cfg.defendCost

/-- Modelled from the spec: a warrior standing on a resource cell
consumes it atomically, gaining its energy value; the resource is
removed from Arena Memory. -/
def consumeAt (a : Arena) (wid : Nat) : Arena :=
  match findWarrior a wid with
  | none => a
  | some w =>
    match a.resources.find? (fun r => decide (r.pos = w.pos)) with
    | none => a
    | some r =>
        { a with
          warriors := a.warriors.map (fun v =>
            if v.id = wid then
              { v with energy := v.energy + r.energyValue,
                       fitness := v.fitness + (r.energyValue : ℚ) }
            else v),
          resources := a.resources.eraseP (fun s => decide (s.pos = r.pos)) }

/-- Deduct an energy cost from the warrior with the given id. -/
def chargeOnly (a : Arena) (wid : Nat) (cost : ℤ) : Arena :=
  { a with warriors := a.warriors.map (fun v =>
      if v.id = wid then { v with energy := v.energy - cost } else v) }

/-- Modelled from the spec: fail-fast removal, every warrior whose
energy has dropped to zero or below is removed immediately, never
deferred to the generation boundary. -/
def removeDead (a : Arena) : Arena :=
  { a with warriors := a.warriors.filter (fun v => decide (0 < v.energy)) }

/-- Dispatch of the Apply-Effect phase over the closed action set. -/
def applyEffect (a : Arena) (w : Warrior) : Action → Arena
  | .move => applyMove a w
  | .replicate => applyReplicate a w
  | .attack => applyAttack a w
  | .defend => applyDefend a w

/-- The full Sense, Infer, Decode-Action, Apply-Effect, Charge-Cost
state machine for one warrior, followed by fail-fast removal. -/
def stepWarrior (a : Arena) (wid : Nat) : Arena :=
  match findWarrior a wid with
  | none => a
  | some w =>
      removeDead (chargeOnly
        (consumeAt (applyEffect a w (warriorAction a w)) wid) wid
        (a.cfg.survivalCost + actionCost a.cfg (warriorAction a w)))

/-- The LCG-chosen candidate cell of the per-tick spawn attempt, absent
on a degenerate grid. -/
def spawnCell (a : Arena) : Option Pos :=
  if a.cfg.width.toNat = 0 ∨ a.cfg.height.toNat = 0 then none
  else some ⟨((lcg a.seed % a.cfg.width.toNat : Nat) : ℤ),
             ((lcg (lcg a.seed) % a.cfg.height.toNat : Nat) : ℤ)⟩

/-- Modelled from the spec: one seeded resource spawn attempt per tick
at an LCG-chosen cell, skipped when the cell is not free or already
holds a resource. -/
def envSpawn (a : Arena) : List Resource :=
  match spawnCell a with
  | none => a.resources
  | some p =>
      if isFree a p && !(resourceAt a p) then
        ⟨p, 10, "food"⟩ :: a.resources
      else a.resources

/-- Modelled from the spec: the per-tick environment update, advancing
the resource cells and the explicit seed and touching no warrior. -/
def envUpdate (a : Arena) : Arena :=
  { a with resources := envSpawn a, seed := lcg (lcg (lcg a.seed)) }

/-- Modelled from the spec: one tick, the environment update strictly
before one full scheduling pass over the live population, then the age
and survival-fitness accrual of the survivors. -/
def tick (a : Arena) : Arena :=
  let a1 := envUpdate a
  let a2 := (a1.warriors.map Warrior.id).foldl stepWarrior a1
  { a2 with
    tick := a2.tick + 1,
    warriors := a2.warriors.map (fun w =>
      { w with age := w.age + 1, fitness := w.fitness + 1 }) }

/-- Modelled from the spec: the symmetric compatibility metric over
genomes, the normalized sum of byte distances, used only by
speciation. -/
def compatibility (g1 g2 : Genome) : ℚ :=
  (((g1.bytes.zip g2.bytes).map
    (fun bp => ((bp.1 : ℤ) - (bp.2 : ℤ)).natAbs)).sum : ℚ) / genomeSize

/-- Index of the first species whose representative genome is within the
compatibility threshold. -/
def speciesIndex (reps : List Genome) (g : Genome) (threshold : ℚ) : Option Nat :=
  reps.findIdx? (fun r => decide (compatibility r g ≤ threshold))

/-- Modelled from the spec: each warrior joins the first species whose
representative is within the threshold or founds a new species. -/
def speciateGo (threshold : ℚ) : List Warrior → List Genome → List Warrior
  | [], _ => []
  | w :: rest, reps =>
    match speciesIndex reps w.genome threshold with
    | some i => { w with speciesId := some i } :: speciateGo threshold rest reps
    | none =>
        { w with speciesId := some reps.length } ::
          speciateGo threshold rest (reps ++ [w.genome])

/-- Speciation pass over the whole population. -/
def speciate (threshold : ℚ) (ws : List Warrior) : List Warrior :=
  speciateGo threshold ws []

/-- Size of the species a warrior belongs to. -/
def speciesSize (ws : List Warrior) (sid : Option Nat) : Nat :=
  (ws.filter (fun w => decide (w.speciesId = sid))).length

/-- Modelled from the spec: fitness sharing normalizes raw fitness by
species size when enabled. -/
def sharedFitness (sharing : Bool) (ws : List Warrior) (w : Warrior) : ℚ :=
  if sharing then w.fitness / (speciesSize ws w.speciesId : ℚ) else w.fitness

/-- Draw k indices below n from the threaded seed. -/
def drawMany : Nat → Nat → Nat → List Nat × Nat
  | 0, _, s => ([], s)
  | k + 1, n, s =>
    let s1 := lcg s
    let rest := drawMany k n s1
    ((if n = 0 then 0 else s1 % n) :: rest.1, rest.2)

/-- Modelled from the spec: tournament selection samples a fixed-size
random candidate subset and selects its maximum shared-fitness member;
an empty population yields no parent. -/
def tournamentSelect (cfg : Config) (ws : List Warrior) (s : Nat) :
    Option Warrior × Nat :=
  let drawn := drawMany cfg.tournamentSize ws.length s
  let cands := drawn.1.filterMap (fun i => ws.get? i)
  (cands.foldl (fun acc c =>
    match acc with
    | none => some c
    | some b =>
        if sharedFitness cfg.fitnessSharing ws b < sharedFitness cfg.fitnessSharing ws c
        then some c else some b) none, drawn.2)

/-- Modelled from the spec: single-point crossover over the fixed-size
encoding, the point drawn from the threaded seed. -/
def crossover (g1 g2 : Genome) (s : Nat) : Genome × Nat :=
  let s1 := lcg s
  let point := if g1.bytes.length = 0 then 0 else s1 % g1.bytes.length
  (⟨g1.bytes.take point ++ g2.bytes.drop point⟩, s1)

/-- Modelled from the spec: each child slot selects two parents by
tournament, crosses their genomes over and mutates the result, all
draws threaded through the explicit seed. -/
def makeChildren (cfg : Config) (ws : List Warrior) : Nat → Nat → List Genome × Nat
  | 0, s => ([], s)
  | k + 1, s =>
    let p1 := tournamentSelect cfg ws s
    let p2 := tournamentSelect cfg ws p1.2
    match p1.1, p2.1 with
    | some w1, some w2 =>
        let crossed := crossover w1.genome w2.genome p2.2
        let mutated := mutate cfg.mutationRate crossed.1 crossed.2
        let rest := makeChildren cfg ws k mutated.2
        (mutated.1 :: rest.1, rest.2)
    | _, _ => ([], p2.2)

/-- Insertion into a fitness-descending order. -/
def insertByFitness (w : Warrior) : List Warrior → List Warrior
  | [] => [w]
  | v :: rest =>
      if v.fitness ≤ w.fitness then w :: v :: rest else v :: insertByFitness w rest

/-- Sort the population by descending fitness, for elitism. -/
def sortByFitness (ws : List Warrior) : List Warrior :=
  ws.foldr insertByFitness []

/-- All cells of the grid in scan order. -/
def allCells (cfg : Config) : List Pos :=
  (List.range cfg.height.toNat).flatMap (fun y =>
    (List.range cfg.width.toNat).map (fun x => ⟨(x : ℤ), (y : ℤ)⟩))

/-- First cell of the list not occupied by the accumulated population. -/
def firstFree (ws : List Warrior) (cells : List Pos) : Option Pos :=
  cells.find? (fun p => !(ws.any (fun w => decide (w.pos = p))))

/-- Modelled from the spec: place the next-generation genomes one by one
at free cells, each placement respecting occupancy; placement stops when
no free cell remains. -/
def placeGenomes (cfg : Config) (gen : Nat) :
    List Genome → List Warrior → Nat → List Warrior
  | [], acc, _ => acc
  | g :: rest, acc, nid =>
    match firstFree acc (allCells cfg) with
    | none => acc
    | some p =>
        let w : Warrior :=
          { id := nid, genome := g, pos := p, energy := 100, age := 0,
            fitness := 0, generation := gen, lineageDepth := 0,
            speciesId := none, lastAction := "idle" }
        placeGenomes cfg gen rest (w :: acc) (nid + 1)

/-- Modelled from the spec: run_generation advances the configured
number of ticks, then runs the evolution transition: speciation, elitism
over the fitness-sorted survivors, tournament selection with crossover
and mutation for the remaining child slots, and placement of the new
population, the whole transition a pure function of the saved state and
its explicit seed. -/
def runGeneration (a : Arena) : Arena :=
  let aT := (tick)^[a.cfg.ticksPerGeneration] a
  let ws := speciate a.cfg.compatibilityThreshold aT.warriors
  let elite := ((sortByFitness ws).take a.cfg.elitismCount).map Warrior.genome
  let children := makeChildren a.cfg ws (a.cfg.maxPopulation - elite.length) aT.seed
  let genomes := elite ++ children.1
  let newWs := placeGenomes a.cfg (aT.generation + 1) genomes [] aT.nextId
  { aT with
    warriors := newWs,
    generation := aT.generation + 1,
    tick := 0,
    seed := lcg children.2,
    nextId := aT.nextId + genomes.length }

/-- The per-warrior record of the snapshot contract, field for field the
WarriorData interface of the TypeScript sources. -/
structure WarriorData where
  id : Nat
  x : ℤ
  y : ℤ
  energy : ℤ
  age : Nat
  fitness : ℚ
  lineage_depth : Nat
  species_id : Option Nat
  action : String
deriving DecidableEq, Repr

/-- The per-resource record of the snapshot contract, field for field
the ResourceData interface of the TypeScript sources. -/
structure ResourceData where
  x : ℤ
  y : ℤ
  energy_value : ℤ
  resource_type : String
deriving DecidableEq, Repr

/-- The per-territory record of the snapshot contract, field for field
the TerritoryData interface of the TypeScript sources. -/
structure TerritoryData where
  center_x : ℤ
  center_y : ℤ
  radius : ℚ
  owner_id : Option Nat
  resource_multiplier : ℚ
deriving DecidableEq, Repr

/-- The snapshot record, field for field the SimulationState interface
of the TypeScript sources. -/
structure SimulationState where
  warriors : List WarriorData
  resources : List ResourceData
  territories : List TerritoryData
  generation : Nat
  tick : Nat
  population_size : Nat
  species_count : Nat
  average_fitness : ℚ
  max_fitness : ℚ
  diversity_score : ℚ
  environmental_pressure : ℚ
deriving DecidableEq, Repr

/-- Serialize one warrior into its snapshot record. -/
def toWarriorData (w : Warrior) : WarriorData :=
  { id := w.id, x := w.pos.x, y := w.pos.y, energy := w.energy, age := w.age,
    fitness := w.fitness, lineage_depth := w.lineageDepth,
    species_id := w.speciesId, action := w.lastAction }

/-- Serialize one resource into its snapshot record. -/
def toResourceData (r : Resource) : ResourceData :=
  { x := r.pos.x, y := r.pos.y, energy_value := r.energyValue,
    resource_type := r.resourceType }

/-- Serialize one territory into its snapshot record. -/
def toTerritoryData (t : Territory) : TerritoryData :=
  { center_x := t.center.x, center_y := t.center.y, radius := t.radius,
    owner_id := t.ownerId, resource_multiplier := t.resourceMultiplier }

/-- Average fitness of the population, zero when it is empty. -/
def averageFitness (ws : List Warrior) : ℚ :=
  if ws.length = 0 then 0 else (ws.map Warrior.fitness).sum / (ws.length : ℚ)

/-- Maximum fitness of the population, zero when it is empty. -/
def maxFitness (ws : List Warrior) : ℚ :=
  (ws.map Warrior.fitness).foldl max 0

/-- Number of distinct species assignments in the population. -/
def speciesCount (a : Arena) : Nat :=
  ((a.warriors.map Warrior.speciesId).dedup).length

/-- Diversity score: fraction of distinct genomes in the population. -/
def diversityScore (a : Arena) : ℚ :=
  ((a.warriors.map Warrior.genome).dedup.length : ℚ) /
    (max 1 a.warriors.length : ℚ)

/-- Modelled from the spec: get_state_snapshot, a read-only
serialization of the arena containing every warrior, resource and
territory record plus the counters, statistics, diversity and pressure
fields of the snapshot contract. -/
def getStateSnapshot (a : Arena) : SimulationState :=
  { warriors := a.warriors.map toWarriorData
    resources := a.resources.map toResourceData
    territories := a.territories.map toTerritoryData
    generation := a.generation
    tick := a.tick
    population_size := a.warriors.length
    species_count := speciesCount a
    average_fitness := averageFitness a.warriors
    max_fitness := maxFitness a.warriors
    diversity_score := diversityScore a
    environmental_pressure := a.pressure }

/-- Export the genome of a live warrior as bytes. -/
def exportGenome (w : Warrior) : List Nat := w.genome.bytes

/-- Modelled from the spec: import validates the fixed genome size
before accepting the bytes. -/
def importGenome (bytes : List Nat) : Option Genome :=
  if bytes.length = genomeSize then some ⟨bytes⟩ else none

/-- Modelled from the spec: importing into the arena inserts a fresh
warrior holding the imported genome at a free cell; a byte sequence of
the wrong length is rejected without affecting the live population. -/
def importIntoArena (a : Arena) (bytes : List Nat) : Arena :=
  match importGenome bytes with
  | none => a
  | some g =>
    match firstFree a.warriors (allCells a.cfg) with
    | none => a
    | some p =>
        { a with
          warriors :=
            { id := a.nextId, genome := g, pos := p, energy := 100, age := 0,
              fitness := 0, generation := a.generation, lineageDepth := 0,
              speciesId := none, lastAction := "idle" } :: a.warriors,
          nextId := a.nextId + 1 }

/-- Arena Memory invariant over a warrior list: warrior identities are
pairwise distinct, occupied cells are pairwise distinct, and every
identity is below the next fresh identity. -/
def InvW (ws : List Warrior) (nid : Nat) : Prop :=
  (ws.map Warrior.id).Nodup ∧ (ws.map Warrior.pos).Nodup ∧ ∀ w ∈ ws, w.id < nid

instance (ws : List Warrior) (nid : Nat) : Decidable (InvW ws nid) := by
  unfold InvW; infer_instance

/-- The Arena Memory invariant of the spec: no two warriors occupy the
same cell, identities are unique and fresh identities are really
fresh. -/
def Inv (a : Arena) : Prop := InvW a.warriors a.nextId

instance (a : Arena) : Decidable (Inv a) := by
  unfold Inv; infer_instance

theorem map_id_eq_of_preserve (ws : List Warrior) (f : Warrior → Warrior)
    (h : ∀ w, (f w).id = w.id) :
    (ws.map f).map Warrior.id = ws.map Warrior.id := by
  induction ws with
  | nil => rfl
  | cons w t ih => simp [h, ih]

theorem map_pos_eq_of_preserve (ws : List Warrior) (f : Warrior → Warrior)
    (h : ∀ w, (f w).pos = w.pos) :
    (ws.map f).map Warrior.pos = ws.map Warrior.pos := by
  induction ws with
  | nil => rfl
  | cons w t ih => simp [h, ih]

theorem invW_map (ws : List Warrior) (nid : Nat) (f : Warrior → Warrior)
    (hf : ∀ w, (f w).id = w.id ∧ (f w).pos = w.pos) :
    InvW ws nid → InvW (ws.map f) nid := by
  rintro ⟨h1, h2, h3⟩
  refine ⟨?_, ?_, ?_⟩
  · rw [map_id_eq_of_preserve ws f (fun w => (hf w).1)]; exact h1
  · rw [map_pos_eq_of_preserve ws f (fun w => (hf w).2)]; exact h2
  · intro w hw
    obtain ⟨v, hv, rfl⟩ := List.mem_map.mp hw
    rw [(hf v).1]; exact h3 v hv

theorem invW_filter (ws : List Warrior) (nid : Nat) (q : Warrior → Bool) :
    InvW ws nid → InvW (ws.filter q) nid := by
  rintro ⟨h1, h2, h3⟩
  have hsub : (ws.filter q).Sublist ws := List.filter_sublist ws
  exact ⟨h1.sublist (hsub.map Warrior.id), h2.sublist (hsub.map Warrior.pos),
    fun w hw => h3 w (List.mem_of_mem_filter hw)⟩

theorem invW_mono (ws : List Warrior) (nid nid' : Nat) (h : nid ≤ nid') :
    InvW ws nid → InvW ws nid' := by
  rintro ⟨h1, h2, h3⟩
  exact ⟨h1, h2, fun w hw => lt_of_lt_of_le (h3 w hw) h⟩

theorem invW_cons (ws : List Warrior) (nid : Nat) (w : Warrior)
    (hpos : w.pos ∉ ws.map Warrior.pos) (hid : nid ≤ w.id) (h : InvW ws nid) :
    InvW (w :: ws) (w.id + 1) := by
  obtain ⟨h1, h2, h3⟩ := h
  refine ⟨?_, ?_, ?_⟩
  · simp only [List.map_cons, List.nodup_cons]
    refine ⟨?_, h1⟩
    intro hmem
    obtain ⟨v, hv, hveq⟩ := List.mem_map.mp hmem
    have := h3 v hv
    omega
  · simp only [List.map_cons, List.nodup_cons]
    exact ⟨hpos, h2⟩
  · intro v hv
    rcases List.mem_cons.mp hv with rfl | hv
    · omega
    · have := h3 v hv; omega

theorem nodup_pos_move (ws : List Warrior) (wid : Nat) (p : Pos)
    (h1 : (ws.map Warrior.id).Nodup) (h2 : (ws.map Warrior.pos).Nodup)
    (hp : p ∉ ws.map Warrior.pos) :
    (ws.map (fun v => if v.id = wid then p else v.pos)).Nodup := by
  induction ws with
  | nil => simp
  | cons w t ih =>
    simp only [List.map_cons, List.nodup_cons] at h1 h2 ⊢
    simp only [List.map_cons, List.mem_cons, not_or] at hp
    refine ⟨?_, ih h1.2 h2.2 hp.2⟩
    intro hmem
    obtain ⟨v, hv, hveq⟩ := List.mem_map.mp hmem
    by_cases hw : w.id = wid
    · by_cases hvw : v.id = wid
      · exact h1.1 (List.mem_map.mpr ⟨v, hv, by rw [hvw, hw]⟩)
      · simp only [hw, if_pos, hvw, if_neg, not_false_iff] at hveq
        exact hp.2 (List.mem_map.mpr ⟨v, hv, hveq⟩)
    · by_cases hvw : v.id = wid
      · simp only [hw, if_neg, not_false_iff, hvw, if_pos] at hveq
        exact hp.1 hveq
      · simp only [hw, if_neg, not_false_iff, hvw] at hveq
        exact h2.1 (List.mem_map.mpr ⟨v, hv, hveq⟩)

theorem map_pos_move (ws : List Warrior) (wid : Nat) (p : Pos) (lact : String) :
    ((ws.map (fun v =>
      if v.id = wid then { v with pos := p, lastAction := lact } else v)).map
        Warrior.pos) =
      ws.map (fun v => if v.id = wid then p else v.pos) := by
  induction ws with
  | nil => rfl
  | cons w t ih =>
    by_cases hv : w.id = wid <;> simp [hv, ih]

theorem invW_move (ws : List Warrior) (nid wid : Nat) (p : Pos) (lact : String)
    (hp : p ∉ ws.map Warrior.pos) (h : InvW ws nid) :
    InvW (ws.map (fun v =>
      if v.id = wid then { v with pos := p, lastAction := lact } else v)) nid := by
  obtain ⟨h1, h2, h3⟩ := h
  have hid : ∀ v : Warrior,
      ((fun v => if v.id = wid then { v with pos := p, lastAction := lact } else v) v).id
        = v.id := by
    intro v; by_cases hv : v.id = wid <;> simp [hv]
  refine ⟨?_, ?_, ?_⟩
  · rw [map_id_eq_of_preserve _ _ hid]; exact h1
  · rw [map_pos_move]
    exact nodup_pos_move ws wid p h1 h2 hp
  · intro w hw
    obtain ⟨v, hv, rfl⟩ := List.mem_map.mp hw
    rw [hid v]; exact h3 v hv

theorem isFree_not_mem (a : Arena) (p : Pos) (h : isFree a p = true) :
    p ∉ a.warriors.map Warrior.pos := by
  unfold isFree isOccupied at h
  rw [Bool.and_eq_true] at h
  have h2 := h.2
  simp only [Bool.not_eq_true', List.any_eq_false, decide_eq_true_eq,
    decide_eq_false_iff_not] at h2
  intro hmem
  obtain ⟨v, hv, hveq⟩ := List.mem_map.mp hmem
  exact h2 v hv hveq

theorem freeAdjacent_isFree (a : Arena) (q p : Pos)
    (h : freeAdjacent a q = some p) : isFree a p = true := by
  unfold freeAdjacent at h
  exact List.find?_some h

theorem firstFree_not_mem (ws : List Warrior) (cells : List Pos) (p : Pos)
    (h : firstFree ws cells = some p) : p ∉ ws.map Warrior.pos := by
  unfold firstFree at h
  have hpred := List.find?_some h
  simp only [Bool.not_eq_true', List.any_eq_false, decide_eq_true_eq,
    decide_eq_false_iff_not] at hpred
  intro hmem
  obtain ⟨v, hv, hveq⟩ := List.mem_map.mp hmem
  exact hpred v hv hveq

theorem inv_applyMove (a : Arena) (w : Warrior) (h : Inv a) : Inv (applyMove a w) := by
  unfold applyMove
  cases hfa : freeAdjacent a w.pos with
  | none => exact h
  | some p =>
      have hp : p ∉ a.warriors.map Warrior.pos :=
        isFree_not_mem a p (freeAdjacent_isFree a w.pos p hfa)
      exact invW_move a.warriors a.nextId w.id p "move" hp h

theorem inv_applyAttack (a : Arena) (w : Warrior) (h : Inv a) :
    Inv (applyAttack a w) := by
  unfold applyAttack
  cases hfa : (neighbors w.pos).find? (fun q => isOccupied a q) with
  | none => exact h
  | some q =>
      refine invW_map a.warriors a.nextId _ ?_ h
      intro v; by_cases hv : v.pos = q <;> simp [hv]

theorem inv_applyDefend (a : Arena) (w : Warrior) (h : Inv a) :
    Inv (applyDefend a w) := by
  unfold applyDefend
  refine invW_map a.warriors a.nextId _ ?_ h
  intro v; by_cases hv : v.id = w.id <;> simp [hv]

theorem inv_applyReplicate (a : Arena) (w : Warrior) (h : Inv a) :
    Inv (applyReplicate a w) := by
  unfold applyReplicate
  by_cases hcond :
      a.cfg.replicationCost ≤ w.energy ∧ a.warriors.length < a.cfg.maxPopulation
  · rw [if_pos hcond]
    cases hfa : freeAdjacent a w.pos with
    | none => exact h
    | some p =>
        have hp : p ∉ a.warriors.map Warrior.pos :=
          isFree_not_mem a p (freeAdjacent_isFree a w.pos p hfa)
        have hf : ∀ v : Warrior,
            ((fun v => if v.id = w.id then
              { v with energy := v.energy - a.cfg.replicationCost,
                       lastAction := "replicate" } else v) v).id = v.id ∧
            ((fun v => if v.id = w.id then
              { v with energy := v.energy - a.cfg.replicationCost,
                       lastAction := "replicate" } else v) v).pos = v.pos := by
          intro v; by_cases hv : v.id = w.id <;> simp [hv]
        have hmap := invW_map a.warriors a.nextId _ hf h
        have hp2 : p ∉ (a.warriors.map (fun v => if v.id = w.id then
            { v with energy := v.energy - a.cfg.replicationCost,
                     lastAction := "replicate" } else v)).map Warrior.pos := by
          rw [map_pos_eq_of_preserve _ _ (fun v => (hf v).2)]
          exact hp
        exact invW_cons _ a.nextId _ hp2 (le_refl _) hmap
  · rw [if_neg hcond]; exact h

theorem inv_applyEffect (a : Arena) (w : Warrior) (act : Action) (h : Inv a) :
    Inv (applyEffect a w act) := by
  cases act with
  | move => exact inv_applyMove a w h
  | replicate => exact inv_applyReplicate a w h
  | attack => exact inv_applyAttack a w h
  | defend => exact inv_applyDefend a w h

theorem inv_consumeAt (a : Arena) (wid : Nat) (h : Inv a) : Inv (consumeAt a wid) := by
  unfold consumeAt
  cases hfw : findWarrior a wid with
  | none => exact h
  | some w =>
      dsimp only
      cases hfr : a.resources.find? (fun r => decide (r.pos = w.pos)) with
      | none => exact h
      | some r =>
          refine invW_map a.warriors a.nextId _ ?_ h
          intro v; by_cases hv : v.id = wid <;> simp [hv]

theorem inv_chargeOnly (a : Arena) (wid : Nat) (cost : ℤ) (h : Inv a) :
    Inv (chargeOnly a wid cost) := by
  unfold chargeOnly
  refine invW_map a.warriors a.nextId _ ?_ h
  intro v; by_cases hv : v.id = wid <;> simp [hv]

theorem inv_removeDead (a : Arena) (h : Inv a) : Inv (removeDead a) := by
  unfold removeDead
  exact invW_filter a.warriors a.nextId _ h

theorem inv_stepWarrior (a : Arena) (wid : Nat) (h : Inv a) :
    Inv (stepWarrior a wid) := by
  unfold stepWarrior
  cases hfw : findWarrior a wid with
  | none => exact h
  | some w =>
      exact inv_removeDead _ (inv_chargeOnly _ _ _
        (inv_consumeAt _ _ (inv_applyEffect a w _ h)))

theorem inv_envUpdate (a : Arena) (h : Inv a) : Inv (envUpdate a) := h

theorem inv_fold (ids : List Nat) :
    ∀ a : Arena, Inv a → Inv (ids.foldl stepWarrior a) := by
  induction ids with
  | nil => intro a h; exact h
  | cons i t ih =>
      intro a h
      exact ih (stepWarrior a i) (inv_stepWarrior a i h)

theorem inv_tick (a : Arena) (h : Inv a) : Inv (tick a) := by
  unfold tick
  dsimp only
  refine invW_map _ _ _ ?_ (inv_fold _ (envUpdate a) (inv_envUpdate a h))
  intro v; simp

theorem inv_iterate_tick (a : Arena) (h : Inv a) (n : Nat) :
    Inv ((tick)^[n] a) := by
  induction n with
  | zero => exact h
  | succ k ih => rw [Function.iterate_succ_apply']; exact inv_tick _ ih

theorem invW_placeGenomes (cfg : Config) (gen : Nat) :
    ∀ (gs : List Genome) (acc : List Warrior) (nid : Nat), InvW acc nid →
      InvW (placeGenomes cfg gen gs acc nid) (nid + gs.length) := by
  intro gs
  induction gs with
  | nil =>
      intro acc nid h
      exact invW_mono _ _ _ (Nat.le_add_right _ _) h
  | cons g rest ih =>
      intro acc nid h
      unfold placeGenomes
      cases hff : firstFree acc (allCells cfg) with
      | none => exact invW_mono _ _ _ (Nat.le_add_right _ _) h
      | some p =>
          have hp := firstFree_not_mem acc (allCells cfg) p hff
          have hstep := invW_cons acc nid
            { id := nid, genome := g, pos := p, energy := 100, age := 0,
              fitness := 0, generation := gen, lineageDepth := 0,
              speciesId := none, lastAction := "idle" }
            hp (le_refl nid) h
          have := ih _ (nid + 1) hstep
          have hlen : nid + 1 + rest.length = nid + (g :: rest).length := by
            simp [List.length_cons]; omega
          rw [hlen] at this
          exact this

theorem runGeneration_nodup_pos (a : Arena) :
    ((runGeneration a).warriors.map Warrior.pos).Nodup := by
  unfold runGeneration
  dsimp only
  have h0 : InvW ([] : List Warrior) ((tick)^[a.cfg.ticksPerGeneration] a).nextId :=
    ⟨List.nodup_nil, List.nodup_nil, by intro w hw; cases hw⟩
  exact (invW_placeGenomes a.cfg _ _ [] _ h0).2.1

theorem find_unique (ws : List Warrior) (hnd : (ws.map Warrior.id).Nodup)
    (j : Nat) (w : Warrior) (hw : w ∈ ws) (hj : w.id = j) :
    ws.find? (fun v => decide (v.id = j)) = some w := by
  induction ws with
  | nil => cases hw
  | cons v t ih =>
      simp only [List.map_cons, List.nodup_cons] at hnd
      rcases List.mem_cons.mp hw with rfl | hmem
      · exact List.find?_cons_of_pos _ (by simp [hj])
      · have hvj : ¬ v.id = j := by
          intro hv
          exact hnd.1 (List.mem_map.mpr ⟨w, hmem, by rw [hj, hv]⟩)
        rw [List.find?_cons_of_neg _ (by simp [hvj])]
        exact ih hnd.2 hmem

theorem mem_map_back_energy (l : List Warrior) (f : Warrior → Warrior)
    (hid : ∀ v, (f v).id = v.id) (hen : ∀ v, (f v).energy ≤ v.energy)
    (j : Nat) (w' : Warrior) (hw' : w' ∈ l.map f) (hj : w'.id = j) :
    ∃ v ∈ l, v.id = j ∧ w'.energy ≤ v.energy := by
  obtain ⟨v, hv, rfl⟩ := List.mem_map.mp hw'
  refine ⟨v, hv, ?_, hen v⟩
  rw [← hid v]; exact hj

theorem actionCost_nonneg (cfg : Config) (act : Action) (hok : cfg.okay) :
    0 ≤ actionCost cfg act := by
  obtain ⟨_, _, _, hm, hatk, hd, _, _⟩ := hok
  cases act with
  | move => exact hm
  | replicate => exact le_refl 0
  | attack => exact hatk
  | defend => exact hd

theorem applyEffect_resources (a : Arena) (w : Warrior) (act : Action) :
    (applyEffect a w act).resources = a.resources := by
  cases act with
  | move =>
      show (applyMove a w).resources = a.resources
      unfold applyMove
      cases freeAdjacent a w.pos <;> rfl
  | replicate =>
      show (applyReplicate a w).resources = a.resources
      unfold applyReplicate
      by_cases hc : a.cfg.replicationCost ≤ w.energy ∧
          a.warriors.length < a.cfg.maxPopulation
      · rw [if_pos hc]
        cases freeAdjacent a w.pos <;> rfl
      · rw [if_neg hc]
  | attack =>
      show (applyAttack a w).resources = a.resources
      unfold applyAttack
      cases (neighbors w.pos).find? (fun q => isOccupied a q) <;> rfl
  | defend => rfl

theorem applyEffect_cfg (a : Arena) (w : Warrior) (act : Action) :
    (applyEffect a w act).cfg = a.cfg := by
  cases act with
  | move =>
      show (applyMove a w).cfg = a.cfg
      unfold applyMove
      cases freeAdjacent a w.pos <;> rfl
  | replicate =>
      show (applyReplicate a w).cfg = a.cfg
      unfold applyReplicate
      by_cases hc : a.cfg.replicationCost ≤ w.energy ∧
          a.warriors.length < a.cfg.maxPopulation
      · rw [if_pos hc]
        cases freeAdjacent a w.pos <;> rfl
      · rw [if_neg hc]
  | attack =>
      show (applyAttack a w).cfg = a.cfg
      unfold applyAttack
      cases (neighbors w.pos).find? (fun q => isOccupied a q) <;> rfl
  | defend => rfl

theorem applyEffect_nextId_ge (a : Arena) (w : Warrior) (act : Action) :
    a.nextId ≤ (applyEffect a w act).nextId := by
  cases act with
  | move =>
      show a.nextId ≤ (applyMove a w).nextId
      unfold applyMove
      cases freeAdjacent a w.pos <;> simp
  | replicate =>
      show a.nextId ≤ (applyReplicate a w).nextId
      unfold applyReplicate
      by_cases hc : a.cfg.replicationCost ≤ w.energy ∧
          a.warriors.length < a.cfg.maxPopulation
      · rw [if_pos hc]
        cases freeAdjacent a w.pos
        · simp
        · simp
      · rw [if_neg hc]
  | attack =>
      show a.nextId ≤ (applyAttack a w).nextId
      unfold applyAttack
      cases (neighbors w.pos).find? (fun q => isOccupied a q) <;> simp
  | defend => exact le_refl _

theorem consumeAt_empty (a : Arena) (wid : Nat) (h : a.resources = []) :
    consumeAt a wid = a := by
  unfold consumeAt
  cases hfw : findWarrior a wid with
  | none => rfl
  | some w =>
      dsimp only
      rw [h]
      rfl

theorem applyEffect_mem_back (a : Arena) (w : Warrior) (act : Action)
    (hok : a.cfg.okay) (j : Nat) (hj : j < a.nextId) (w' : Warrior)
    (hw' : w' ∈ (applyEffect a w act).warriors) (hid : w'.id = j) :
    ∃ v ∈ a.warriors, v.id = j ∧ w'.energy ≤ v.energy := by
  obtain ⟨_, _, _, _, _, _, hrc, hdmg⟩ := hok
  cases act with
  | move =>
      unfold applyEffect applyMove at hw'
      cases hfa : freeAdjacent a w.pos with
      | none => rw [hfa] at hw'; exact ⟨w', hw', hid, le_refl _⟩
      | some p =>
          rw [hfa] at hw'
          refine mem_map_back_energy a.warriors _ ?_ ?_ j w' hw' hid
          · intro v; by_cases hv : v.id = w.id <;> simp [hv]
          · intro v; by_cases hv : v.id = w.id <;> simp [hv]
  | replicate =>
      unfold applyEffect applyReplicate at hw'
      by_cases hc : a.cfg.replicationCost ≤ w.energy ∧
          a.warriors.length < a.cfg.maxPopulation
      · rw [if_pos hc] at hw'
        cases hfa : freeAdjacent a w.pos with
        | none => rw [hfa] at hw'; exact ⟨w', hw', hid, le_refl _⟩
        | some p =>
            rw [hfa] at hw'
            dsimp only at hw'
            rcases List.mem_cons.mp hw' with rfl | hmem
            · exact absurd hid (by simp; omega)
            · refine mem_map_back_energy a.warriors _ ?_ ?_ j w' hmem hid
              · intro v; by_cases hv : v.id = w.id <;> simp [hv]
              · intro v; by_cases hv : v.id = w.id <;> simp [hv]; omega
      · rw [if_neg hc] at hw'; exact ⟨w', hw', hid, le_refl _⟩
  | attack =>
      unfold applyEffect applyAttack at hw'
      cases hfa : (neighbors w.pos).find? (fun q => isOccupied a q) with
      | none => rw [hfa] at hw'; exact ⟨w', hw', hid, le_refl _⟩
      | some q =>
          rw [hfa] at hw'
          refine mem_map_back_energy a.warriors _ ?_ ?_ j w' hw' hid
          · intro v; by_cases hv : v.pos = q <;> simp [hv]
          · intro v; by_cases hv : v.pos = q <;> simp [hv]; omega
  | defend =>
      unfold applyEffect applyDefend at hw'
      refine mem_map_back_energy a.warriors _ ?_ ?_ j w' hw' hid
      · intro v; by_cases hv : v.id = w.id <;> simp [hv]
      · intro v; by_cases hv : v.id = w.id <;> simp [hv]

theorem stepWarrior_mem_back (s : Arena) (i : Nat) (hok : s.cfg.okay)
    (hres : s.resources = []) (j : Nat) (hj : j < s.nextId) (w' : Warrior)
    (hw' : w' ∈ (stepWarrior s i).warriors) (hid : w'.id = j) :
    ∃ v ∈ s.warriors, v.id = j ∧ w'.energy ≤ v.energy := by
  cases hfw : findWarrior s i with
  | none =>
      simp only [stepWarrior, hfw] at hw'
      exact ⟨w', hw', hid, le_refl _⟩
  | some w =>
      simp only [stepWarrior, hfw] at hw'
      rw [consumeAt_empty _ i (by rw [applyEffect_resources]; exact hres)] at hw'
      have hw2 : w' ∈ (chargeOnly (applyEffect s w (warriorAction s w)) i
          (s.cfg.survivalCost + actionCost s.cfg (warriorAction s w))).warriors := by
        unfold removeDead at hw'
        exact List.mem_of_mem_filter hw'
      have hcost : 0 ≤ s.cfg.survivalCost + actionCost s.cfg (warriorAction s w) := by
        have h1 := hok.2.2.1
        have h2 := actionCost_nonneg s.cfg (warriorAction s w) hok
        omega
      unfold chargeOnly at hw2
      obtain ⟨v1, hv1, hv1id, hv1en⟩ :=
        mem_map_back_energy _ _
          (fun v => by by_cases hv : v.id = i <;> simp [hv])
          (fun v => by by_cases hv : v.id = i <;> simp [hv]; omega)
          j w' hw2 hid
      obtain ⟨v, hv, hvid, hven⟩ :=
        applyEffect_mem_back s w (warriorAction s w) hok j hj v1 hv1 hv1id
      exact ⟨v, hv, hvid, le_trans hv1en hven⟩

theorem stepWarrior_resources_empty (s : Arena) (i : Nat) (h : s.resources = []) :
    (stepWarrior s i).resources = [] := by
  cases hfw : findWarrior s i with
  | none => simp only [stepWarrior, hfw]; exact h
  | some w =>
      simp only [stepWarrior, hfw]
      rw [consumeAt_empty _ i (by rw [applyEffect_resources]; exact h)]
      show (applyEffect s w (warriorAction s w)).resources = []
      rw [applyEffect_resources]; exact h

theorem stepWarrior_cfg (s : Arena) (i : Nat) : (stepWarrior s i).cfg = s.cfg := by
  cases hfw : findWarrior s i with
  | none => simp only [stepWarrior, hfw]
  | some w =>
      simp only [stepWarrior, hfw]
      show (consumeAt (applyEffect s w (warriorAction s w)) i).cfg = s.cfg
      unfold consumeAt
      cases hfw2 : findWarrior (applyEffect s w (warriorAction s w)) i with
      | none => exact applyEffect_cfg s w _
      | some v =>
          dsimp only
          cases (applyEffect s w (warriorAction s w)).resources.find?
              (fun r => decide (r.pos = v.pos)) with
          | none => exact applyEffect_cfg s w _
          | some r => exact applyEffect_cfg s w _

theorem stepWarrior_nextId_ge (s : Arena) (i : Nat) :
    s.nextId ≤ (stepWarrior s i).nextId := by
  cases hfw : findWarrior s i with
  | none => simp only [stepWarrior, hfw]; exact le_refl _
  | some w =>
      simp only [stepWarrior, hfw]
      show s.nextId ≤ (consumeAt (applyEffect s w (warriorAction s w)) i).nextId
      unfold consumeAt
      cases hfw2 : findWarrior (applyEffect s w (warriorAction s w)) i with
      | none => exact applyEffect_nextId_ge s w _
      | some v =>
          dsimp only
          cases (applyEffect s w (warriorAction s w)).resources.find?
              (fun r => decide (r.pos = v.pos)) with
          | none => exact applyEffect_nextId_ge s w _
          | some r => exact applyEffect_nextId_ge s w _

theorem fold_mem_back (ids : List Nat) :
    ∀ (s : Arena), s.cfg.okay → s.resources = [] → ∀ j, j < s.nextId →
      ∀ w' ∈ (ids.foldl stepWarrior s).warriors, w'.id = j →
        ∃ v ∈ s.warriors, v.id = j ∧ w'.energy ≤ v.energy := by
  induction ids with
  | nil =>
      intro s _ _ j _ w' hw' hid
      exact ⟨w', hw', hid, le_refl _⟩
  | cons i t ih =>
      intro s hok hres j hj w' hw' hid
      have hok1 : (stepWarrior s i).cfg.okay := by
        rw [stepWarrior_cfg]; exact hok
      have hres1 : (stepWarrior s i).resources = [] :=
        stepWarrior_resources_empty s i hres
      have hj1 : j < (stepWarrior s i).nextId :=
        lt_of_lt_of_le hj (stepWarrior_nextId_ge s i)
      obtain ⟨v1, hv1, hv1id, hv1en⟩ :=
        ih (stepWarrior s i) hok1 hres1 j hj1 w' hw' hid
      obtain ⟨v, hv, hvid, hven⟩ :=
        stepWarrior_mem_back s i hok hres j hj v1 hv1 hv1id
      exact ⟨v, hv, hvid, le_trans hv1en hven⟩

theorem tick_mem_back (a : Arena) (hok : a.cfg.okay)
    (hres : (envUpdate a).resources = []) (j : Nat) (hj : j < a.nextId)
    (w' : Warrior) (hw' : w' ∈ (tick a).warriors) (hid : w'.id = j) :
    ∃ v ∈ a.warriors, v.id = j ∧ w'.energy ≤ v.energy := by
  unfold tick at hw'
  dsimp only at hw'
  obtain ⟨v2, hv2, rfl⟩ := List.mem_map.mp hw'
  have hid2 : v2.id = j := hid
  exact fold_mem_back _ (envUpdate a) hok hres j hj v2 hv2 hid2

theorem alive_removeDead (s : Arena) :
    ∀ w ∈ (removeDead s).warriors, 0 < w.energy := by
  intro w hw
  have := (List.mem_filter.mp hw).2
  simpa using this

theorem alive_stepWarrior (s : Arena) (i : Nat)
    (h : ∀ w ∈ s.warriors, 0 < w.energy) :
    ∀ w ∈ (stepWarrior s i).warriors, 0 < w.energy := by
  cases hfw : findWarrior s i with
  | none => simp only [stepWarrior, hfw]; exact h
  | some w =>
      simp only [stepWarrior, hfw]
      exact alive_removeDead _

theorem alive_fold (ids : List Nat) :
    ∀ s : Arena, (∀ w ∈ s.warriors, 0 < w.energy) →
      ∀ w ∈ (ids.foldl stepWarrior s).warriors, 0 < w.energy := by
  induction ids with
  | nil => intro s h; exact h
  | cons i t ih =>
      intro s h
      exact ih (stepWarrior s i) (alive_stepWarrior s i h)

theorem alive_tick (a : Arena) (h : ∀ w ∈ a.warriors, 0 < w.energy) :
    ∀ w ∈ (tick a).warriors, 0 < w.energy := by
  unfold tick
  dsimp only
  intro w hw
  obtain ⟨v, hv, rfl⟩ := List.mem_map.mp hw
  exact alive_fold _ (envUpdate a) h v hv

/-- C3: across one tick with no resource to consume, every warrior
present before and after the tick has non-increasing energy; every
warrior surviving a tick has strictly positive energy, so no warrior
with zero or negative energy persists past the tick in which its energy
dropped; and removal is exactly the fail-fast filter of the warriors
whose energy dropped to zero or below, applied within the tick, never
deferred to the generation boundary. -/
theorem energy_discipline (a : Arena) (hInv : Inv a) (hok : a.cfg.okay)
    (hres : (envUpdate a).resources = []) :
    (∀ (j : Nat) (w w' : Warrior), findWarrior a j = some w →
        findWarrior (tick a) j = some w' → w'.energy ≤ w.energy) ∧
    ((∀ w ∈ a.warriors, 0 < w.energy) → ∀ w ∈ (tick a).warriors, 0 < w.energy) ∧
    (∀ s : Arena, (removeDead s).warriors =
        s.warriors.filter (fun v => decide (0 < v.energy))) := by
  refine ⟨?_, alive_tick a, fun s => rfl⟩
  intro j w w' hfind hfind'
  have hwmem : w ∈ a.warriors := List.mem_of_find?_eq_some hfind
  have hwid : w.id = j := by
    have := List.find?_some hfind
    simpa using this
  have hw'mem : w' ∈ (tick a).warriors := List.mem_of_find?_eq_some hfind'
  have hw'id : w'.id = j := by
    have := List.find?_some hfind'
    simpa using this
  have hj : j < a.nextId := by
    rw [← hwid]; exact hInv.2.2 w hwmem
  obtain ⟨v, hv, hvid, hven⟩ := tick_mem_back a hok hres j hj w' hw'mem hw'id
  have hvw : v = w :=
    List.inj_on_of_nodup_map hInv.1 hv hwmem (by rw [hvid, hwid])
  rw [← hvw]
  exact hven

/-- C2: at every tick the live warriors occupy pairwise distinct cells
of Arena Memory, and the same holds after every mutating operation: at
every prefix of a scheduling pass (movement, replication, attacks and
removals included), after every environment update and after the
evolution transition of run_generation. -/
theorem cell_occupancy_invariant (a : Arena) (h : Inv a) :
    (∀ n : Nat, (((tick)^[n] a).warriors.map Warrior.pos).Nodup) ∧
    (∀ (n : Nat) (ids : List Nat),
      ((ids.foldl stepWarrior (envUpdate ((tick)^[n] a))).warriors.map
        Warrior.pos).Nodup) ∧
    ((runGeneration a).warriors.map Warrior.pos).Nodup := by
  refine ⟨?_, ?_, runGeneration_nodup_pos a⟩
  · intro n
    exact (inv_iterate_tick a h n).2.1
  · intro n ids
    exact (inv_fold ids _ (inv_envUpdate _ (inv_iterate_tick a h n))).2.1

/-- C4: the generation transition is deterministic: two runs of
run_generation from the identical saved state (which carries the
explicit RNG seed) produce identical population composition, the same
genomes, the same fitness values and, the two result states being equal
outright, the same selection draws, mutation decisions and crossover
points. -/
theorem runGeneration_deterministic (a s1 s2 : Arena)
    (h1 : s1 = runGeneration a) (h2 : s2 = runGeneration a) :
    s1.warriors.map Warrior.genome = s2.warriors.map Warrior.genome ∧
    s1.warriors.map Warrior.fitness = s2.warriors.map Warrior.fitness ∧
    s1 = s2 := by
  subst h1; subst h2
  exact ⟨rfl, rfl, rfl⟩

/-- C5: a replicate attempt by a warrior whose energy is below the
configured replication cost, or with no free adjacent cell, creates no
warrior and leaves the whole simulation state (the parent's energy
included) unchanged. -/
theorem replicate_atomic (a : Arena) (w : Warrior) :
    (w.energy < a.cfg.replicationCost → applyReplicate a w = a) ∧
    (freeAdjacent a w.pos = none → applyReplicate a w = a) := by
  constructor
  · intro hlt
    unfold applyReplicate
    rw [if_neg]
    intro hc
    exact absurd hc.1 (not_le.mpr hlt)
  · intro hnone
    unfold applyReplicate
    by_cases hc : a.cfg.replicationCost ≤ w.energy ∧
        a.warriors.length < a.cfg.maxPopulation
    · rw [if_pos hc, hnone]
    · rw [if_neg hc]

/-- C6: the genome export and import round-trip: for every warrior whose
genome has the fixed size, importing the exported bytes reconstructs the
genome exactly, so the decoded network is behaviorally identical (the
same forward scores, hence the same chosen action on every sensor
input); and import rejects every byte sequence of the wrong length
without affecting the arena. -/
theorem genome_roundtrip (w : Warrior) (hw : w.genome.bytes.length = genomeSize) :
    importGenome (exportGenome w) = some w.genome ∧
    (∀ g, importGenome (exportGenome w) = some g →
      ∀ (h : Nat) (sensors : List ℚ),
        (decode h g).forward sensors = (decode h w.genome).forward sensors ∧
        chooseAction ((decode h g).forward sensors) =
          chooseAction ((decode h w.genome).forward sensors)) ∧
    (∀ bytes : List Nat, bytes.length ≠ genomeSize →
      importGenome bytes = none ∧ ∀ a : Arena, importIntoArena a bytes = a) := by
  have h1 : importGenome (exportGenome w) = some w.genome := by
    unfold importGenome exportGenome
    rw [if_pos hw]
  refine ⟨h1, ?_, ?_⟩
  · intro g hg h sensors
    rw [h1] at hg
    injection hg with hg
    subst hg
    exact ⟨rfl, rfl⟩
  · intro bytes hb
    have h2 : importGenome bytes = none := by
      unfold importGenome
      rw [if_neg hb]
    refine ⟨h2, fun a => ?_⟩
    unfold importIntoArena
    rw [h2]

/-- C7: the snapshot contract is complete: get_state_snapshot carries,
for every warrior its id, position, energy, age, fitness, lineage depth,
species id and last action; for every resource its position, energy
value and type; for every territory its center, radius, owner and
resource multiplier; plus the generation and tick counters, population
size, species count, average and maximum fitness, diversity score and
environmental pressure, matching the SimulationState, WarriorData,
ResourceData and TerritoryData records field for field. -/
theorem snapshot_complete (a : Arena) :
    (getStateSnapshot a).warriors = a.warriors.map toWarriorData ∧
    (∀ w : Warrior, (toWarriorData w).id = w.id ∧ (toWarriorData w).x = w.pos.x ∧
      (toWarriorData w).y = w.pos.y ∧ (toWarriorData w).energy = w.energy ∧
      (toWarriorData w).age = w.age ∧ (toWarriorData w).fitness = w.fitness ∧
      (toWarriorData w).lineage_depth = w.lineageDepth ∧
      (toWarriorData w).species_id = w.speciesId ∧
      (toWarriorData w).action = w.lastAction) ∧
    (getStateSnapshot a).resources = a.resources.map toResourceData ∧
    (∀ r : Resource, (toResourceData r).x = r.pos.x ∧
      (toResourceData r).y = r.pos.y ∧
      (toResourceData r).energy_value = r.energyValue ∧
      (toResourceData r).resource_type = r.resourceType) ∧
    (getStateSnapshot a).territories = a.territories.map toTerritoryData ∧
    (∀ t : Territory, (toTerritoryData t).center_x = t.center.x ∧
      (toTerritoryData t).center_y = t.center.y ∧
      (toTerritoryData t).radius = t.radius ∧
      (toTerritoryData t).owner_id = t.ownerId ∧
      (toTerritoryData t).resource_multiplier = t.resourceMultiplier) ∧
    (getStateSnapshot a).generation = a.generation ∧
    (getStateSnapshot a).tick = a.tick ∧
    (getStateSnapshot a).population_size = a.warriors.length ∧
    (getStateSnapshot a).species_count = speciesCount a ∧
    (getStateSnapshot a).average_fitness = averageFitness a.warriors ∧
    (getStateSnapshot a).max_fitness = maxFitness a.warriors ∧
    (getStateSnapshot a).diversity_score = diversityScore a ∧
    (getStateSnapshot a).environmental_pressure = a.pressure :=
  ⟨rfl, fun _ => ⟨rfl, rfl, rfl, rfl, rfl, rfl, rfl, rfl, rfl⟩,
   rfl, fun _ => ⟨rfl, rfl, rfl, rfl⟩,
   rfl, fun _ => ⟨rfl, rfl, rfl, rfl, rfl⟩,
   rfl, rfl, rfl, rfl, rfl, rfl, rfl, rfl⟩

/-- A small valid configuration for concrete runs. -/
def cfg0 : Config :=
  { width := 4, height := 4, hiddenSize := 16, survivalCost := 1, moveCost := 0,
    attackCost := 1, defendCost := 0, replicationCost := 10, attackDamage := 5,
    childEnergy := 50, mutationRate := 5, compatibilityThreshold := 3,
    fitnessSharing := true, tournamentSize := 3, elitismCount := 1,
    maxPopulation := 4, ticksPerGeneration := 1 }

/-- A concrete warrior with a full-size genome. -/
def warrior0 : Warrior :=
  { id := 0, genome := ⟨List.replicate genomeSize 7⟩, pos := ⟨0, 0⟩,
    energy := 20, age := 0, fitness := 0, generation := 0, lineageDepth := 0,
    speciesId := none, lastAction := "idle" }

/-- A concrete arena on the 4 by 4 grid. -/
def arena0 : Arena :=
  { cfg := cfg0, warriors := [warrior0], resources := [], territories := [],
    generation := 0, tick := 0, pressure := 0, nextId := 1, seed := 42 }

/-- The same arena on a degenerate 1 by 1 grid: the only cell is
occupied, no free neighbor exists and no resource can spawn. -/
def arena1 : Arena :=
  { arena0 with cfg := { cfg0 with width := 1, height := 1 } }

/-- A concrete warrior whose energy is below the replication cost. -/
def warriorPoor : Warrior := { warrior0 with energy := 5 }

theorem cell_occupancy_invariant_witness :
    (((tick)^[2] arena0).warriors.map Warrior.pos).Nodup :=
  (cell_occupancy_invariant arena0 (by decide)).1 2

theorem energy_discipline_witness :
    (tick arena1).warriors.all (fun w => decide (0 < w.energy)) = true :=
  List.all_eq_true.mpr (fun w hw =>
    decide_eq_true
      ((energy_discipline arena1 (by decide) (by decide) (by decide)).2.1
        (by decide) w hw))

theorem runGeneration_deterministic_witness :
    (runGeneration arena0).warriors.map Warrior.genome =
      (runGeneration arena0).warriors.map Warrior.genome ∧
    (runGeneration arena0).warriors.map Warrior.fitness =
      (runGeneration arena0).warriors.map Warrior.fitness ∧
    runGeneration arena0 = runGeneration arena0 :=
  runGeneration_deterministic arena0 (runGeneration arena0) (runGeneration arena0)
    rfl rfl

theorem replicate_atomic_witness :
    applyReplicate arena0 warriorPoor = arena0 ∧
    applyReplicate arena1 warrior0 = arena1 :=
  ⟨(replicate_atomic arena0 warriorPoor).1 (by decide),
   (replicate_atomic arena1 warrior0).2 (by decide)⟩

theorem genome_roundtrip_witness :
    importGenome (exportGenome warrior0) = some warrior0.genome :=
  (genome_roundtrip warrior0 (by decide)).1

end Core
